import Mathlib

/-!
# Verification of the `accessibility_mcp` request dispatcher

Shallow embedding of `crates/accessibility_mcp/src/protocol.rs` and
`crates/accessibility_mcp/src/server.rs`.  Rust machine strings are
modelled by Lean `String`, `anyhow::Result<T>` by `Except String T`
(the error carries the formatted message), and the platform
`AccessibilityProvider` trait object by a record of functions.
`f64` values are modelled by their 64-bit patterns as naturals, which
is exact for the JSON value-level (de)serialization questions treated
here.  Logging through `tracing` is modelled by an explicit list of
emitted log strings.
-/

set_option maxRecDepth 4000

namespace Mcp

/-- `NodeId(String)` from protocol.rs: opaque newtype over a string. -/
structure NodeId where
  id : String
deriving DecidableEq, Repr

/-- `Rect` from protocol.rs; the four `f64` fields are modelled by
their bit patterns (naturals below `2^64`). -/
structure Rect where
  x : Nat
  y : Nat
  width : Nat
  height : Nat
deriving DecidableEq, Repr

/-- `Action` from protocol.rs (serde tag `type`, snake_case). -/
inductive Action where
  | focus
  | press
  | increment
  | decrement
  | setValue (value : String)
  | scroll (x : Nat) (y : Nat)
  | contextMenu
  | custom (name : String)
deriving DecidableEq, Repr

/-- `Node` from protocol.rs. -/
structure Node where
  id : NodeId
  role : String
  name : Option String
  value : Option String
  description : Option String
  bounds : Option Rect
  actions : List Action
  children : List NodeId
deriving DecidableEq, Repr

/-- `Request` from protocol.rs (serde tag `method`, snake_case). -/
inductive Request where
  | queryTree (max_depth : Option Nat) (max_nodes : Option Nat)
  | getNode (node_id : NodeId)
  | performAction (node_id : NodeId) (action : Action)
  | findByName (name : String)
deriving DecidableEq, Repr

/-- `ErrorCode` from protocol.rs. -/
inductive ErrorCode where
  | notFound
  | permissionDenied
  | transient
  | invalidAction
  | internal
deriving DecidableEq, Repr

/-- `ErrorInfo` from protocol.rs. -/
structure ErrorInfo where
  code : ErrorCode
  message : String
deriving DecidableEq, Repr

/-- `ResponseData` from protocol.rs (serde `untagged`; variant order
`Tree`, `Node`, `ActionResult`, `Nodes` matters for deserialization). -/
inductive ResponseData where
  | tree (nodes : List Node)
  | node (node : Node)
  | actionResult (success : Bool)
  | nodes (nodes : List Node)
deriving DecidableEq, Repr

/-- `Response` from protocol.rs (serde tag `status`, snake_case). -/
inductive Response where
  | success (result : ResponseData)
  | error (error : ErrorInfo)
deriving DecidableEq, Repr

/-- `MessageContent` from protocol.rs (serde `untagged`). -/
inductive MessageContent where
  | request (req : Request)
  | response (resp : Response)
deriving DecidableEq, Repr

/-- `Message` envelope from protocol.rs. -/
structure Message where
  protocol_version : String
  content : MessageContent
deriving DecidableEq, Repr

/-- `Message::PROTOCOL_VERSION = "1.0"`. -/
def PROTOCOL_VERSION : String := "1.0"

/-- `Message::response`. -/
def Message.response (resp : Response) : Message :=
  { protocol_version := PROTOCOL_VERSION, content := MessageContent.response resp }

/-- `Message::error`. -/
def Message.error (code : ErrorCode) (message : String) : Message :=
  Message.response (Response.error { code := code, message := message })

/-- The `AccessibilityProvider` trait from platform/mod.rs, as a record
of functions.  `get_children` is declared by the trait but never used
by the dispatcher, so it is omitted.  `anyhow` errors are their
formatted messages. -/
structure Provider where
  get_root : Except String Node
  get_node : NodeId → Except String Node
  perform_action : NodeId → Action → Except String Unit

/-- `handle_query_tree` from server.rs: the `max_depth`/`max_nodes`
arguments are bound but unused in the source (`_max_depth`,
`_max_nodes`). -/
def handle_query_tree (p : Provider) (_max_depth : Option Nat)
    (_max_nodes : Option Nat) : Response :=
  match p.get_root with
  | Except.ok root => Response.success (ResponseData.tree [root])
  | Except.error e =>
      Response.error { code := ErrorCode.internal, message := "Failed to get root: " ++ e }

/-- `handle_get_node` from server.rs. -/
def handle_get_node (p : Provider) (node_id : NodeId) : Response :=
  match p.get_node node_id with
  | Except.ok node => Response.success (ResponseData.node node)
  | Except.error e =>
      Response.error { code := ErrorCode.notFound, message := "Node not found: " ++ e }

/-- `handle_perform_action` from server.rs. -/
def handle_perform_action (p : Provider) (node_id : NodeId) (action : Action) : Response :=
  match p.perform_action node_id action with
  | Except.ok _ => Response.success (ResponseData.actionResult true)
  | Except.error e =>
      Response.error { code := ErrorCode.invalidAction, message := "Failed to perform action: " ++ e }

/-- Character lowercasing as used by Rust `str::to_lowercase`,
modelled on the ASCII range (the source performs full Unicode
lowercasing; the two agree on ASCII data). -/
def lowerChar (c : Char) : Char :=
  if 'A' ≤ c ∧ c ≤ 'Z' then Char.ofNat (c.toNat + 32) else c

/-- String lowercasing (`str::to_lowercase`, ASCII model). -/
def lowerStr (s : String) : String :=
  String.mk (s.data.map lowerChar)

/-- `sub` occurs at the start of `hay` (helper for substring search). -/
def listStartsWith : List Char → List Char → Bool
  | [], _ => true
  | _ :: _, [] => false
  | a :: as, b :: bs => a == b && listStartsWith as bs

/-- `str::contains` on the underlying character lists: `sub` occurs
somewhere inside `hay` (the empty pattern always occurs). -/
def listContainsSub (hay sub : List Char) : Bool :=
  listStartsWith sub hay ||
    match hay with
    | [] => false
    | _ :: t => listContainsSub t sub

/-- `hay.contains(sub)` for Rust strings. -/
def strContainsSub (hay sub : String) : Bool :=
  listContainsSub hay.data sub.data

/-- The match test of `handle_find_by_name` (server.rs lines 347-351):
the node's `name` exists and its lowercasing contains the lowercased
query as a substring. -/
def nodeMatches (query : String) (n : Node) : Bool :=
  match n.name with
  | some node_name => strContainsSub (lowerStr node_name) (lowerStr query)
  | none => false

/-- `MAX_NODES` constant of `handle_find_by_name`. -/
def MAX_NODES : Nat := 1000

/-- The `tracing::warn!` message emitted when the node cap is hit. -/
def maxNodesMsg : String := "find_by_name: hit max nodes limit of 1000"

/-- The `tracing::debug!` message emitted when a child fails to resolve. -/
def childErrMsg (cid : NodeId) (e : String) : String :=
  "Failed to get child node NodeId(\"" ++ cid.id ++ "\"): " ++ e

/-- The child-enqueueing `for` loop of `handle_find_by_name` (server.rs
lines 354-362): each child id is fetched through `provider.get_node`;
a resolved child is pushed on the stack, a failing child is logged and
skipped.  The stack is a Lean list whose head is the top (the Rust
`Vec` pushes/pops at its end), so pushing is consing; children are
processed left to right, leaving the last child topmost, exactly as in
the source. -/
def pushChildren (p : Provider) : List NodeId → List Node → List String →
    List Node × List String
  | [], stack, log => (stack, log)
  | cid :: rest, stack, log =>
      match p.get_node cid with
      | Except.ok child => pushChildren p rest (child :: stack) log
      | Except.error e => pushChildren p rest stack (log ++ [childErrMsg cid e])

/-- The `while let Some(node) = to_visit.pop()` loop of
`handle_find_by_name` (server.rs lines 334-363), with state
`(to_visit, visited, matches, nodes_checked, log)`.  `fuel` is the
explicit termination measure `MAX_NODES + 1 - nodes_checked`: every
iteration increments `nodes_checked` by one, so starting from
`nodes_checked = 0` with `fuel = MAX_NODES + 1` the fuel-exhausted
branch is unreachable (the `nodes_checked >= MAX_NODES` break fires
first).  Returns the final `(matches, nodes_checked, log)`. -/
def find_loop (p : Provider) (query : String) :
    Nat → List Node → List NodeId → List Node → Nat → List String →
    List Node × Nat × List String
  | _, [], _, ms, k, log => (ms, k, log)
  | 0, _ :: _, _, ms, k, log => (ms, k, log)
  | fuel + 1, node :: rest, visited, ms, k, log =>
      if k ≥ MAX_NODES then (ms, k, log ++ [maxNodesMsg])
      else if visited.contains node.id then
        find_loop p query fuel rest visited ms (k + 1) log
      else
        let visited' := node.id :: visited
        let ms' := if nodeMatches query node then ms ++ [node] else ms
        let pushed := pushChildren p node.children rest log
        find_loop p query fuel pushed.1 visited' ms' (k + 1) pushed.2

/-- `handle_find_by_name` from server.rs, instrumented: the first
component is the returned `Response`, the second the list of log
messages emitted by the traversal. -/
def handle_find_by_name (p : Provider) (name : String) : Response × List String :=
  match p.get_root with
  | Except.error e =>
      (Response.error { code := ErrorCode.internal, message := "Failed to get root: " ++ e }, [])
  | Except.ok root =>
      let r := find_loop p name (MAX_NODES + 1) [root] [] [] 0 []
      (Response.success (ResponseData.nodes r.1), r.2.2)

/-- `handle_request` from server.rs (lines 209-253), modelled from the
protocol-version check onward: the serde parse of the input line
(lines 211-216) is represented by taking the decoded `Message`
directly.  The version gate precedes extraction of the request and all
routing.  (The source's `match` also names `Initialize` and
`ToolsList` arms belonging to another revision's `Request` enum; with
the `Request` of the cited protocol.rs they are dead and omitted.) -/
def handle_request (p : Provider) (message : Message) : Message :=
  if message.protocol_version ≠ PROTOCOL_VERSION then
    Message.error ErrorCode.internal
      ("Unsupported protocol version: " ++ message.protocol_version)
  else
    match message.content with
    | MessageContent.response _ =>
        Message.error ErrorCode.internal "Expected request, got response"
    | MessageContent.request req =>
        let response :=
          match req with
          | Request.queryTree max_depth max_nodes => handle_query_tree p max_depth max_nodes
          | Request.getNode node_id => handle_get_node p node_id
          | Request.performAction node_id action => handle_perform_action p node_id action
          | Request.findByName name => (handle_find_by_name p name).1
        Message.response response

/-! ## JSON value model for the serde codec

Serialization is modelled at the JSON value level (the tree
`serde_json::Value`); the text layer is a faithful rendering of these
values, and for the types at issue the serialize→deserialize
composition factors through it.  JSON numbers carry either a `u64`
(used for `usize` fields) or an `f64` bit pattern, mirroring
`serde_json::Number`. -/

/-- A JSON number, as in `serde_json::Number` (the `i64` case is
unused by this protocol and omitted). -/
inductive JNum where
  | u64 (n : Nat)
  | f64 (bits : Nat)

/-- JSON values. -/
inductive Json where
  | null
  | bool (b : Bool)
  | num (n : JNum)
  | str (s : String)
  | arr (xs : List Json)
  | obj (fields : List (String × Json))

/-- The exponent field of an `f64` bit pattern is not all-ones:
the value is neither an infinity nor a NaN. -/
def f64IsFinite (bits : Nat) : Bool :=
  (bits / 2 ^ 52) % 2 ^ 11 ≠ 2047

/-- A quiet-NaN bit pattern (`f64::NAN`). -/
def nanBits : Nat := 0x7FF8000000000000

/-- The bit pattern of `0.0_f64`. -/
def zeroBits : Nat := 0

/-- serde_json serialization of an `f64`: a non-finite value is
written as `null`, a finite one exactly. -/
def serF64 (bits : Nat) : Json :=
  if f64IsFinite bits then Json.num (JNum.f64 bits) else Json.null

/-- serde_json serialization of a `usize`. -/
def serUsize (n : Nat) : Json := Json.num (JNum.u64 n)

/-- `Option<T>` serialization: `None` is `null`. -/
def serOpt (f : α → Json) : Option α → Json
  | none => Json.null
  | some a => f a

/-- `Rect` serialization. -/
def serRect (r : Rect) : Json :=
  Json.obj [("x", serF64 r.x), ("y", serF64 r.y),
            ("width", serF64 r.width), ("height", serF64 r.height)]

/-- `Action` serialization: internally tagged by `type`, snake_case. -/
def serAction : Action → Json
  | Action.focus => Json.obj [("type", Json.str "focus")]
  | Action.press => Json.obj [("type", Json.str "press")]
  | Action.increment => Json.obj [("type", Json.str "increment")]
  | Action.decrement => Json.obj [("type", Json.str "decrement")]
  | Action.setValue v => Json.obj [("type", Json.str "set_value"), ("value", Json.str v)]
  | Action.scroll x y =>
      Json.obj [("type", Json.str "scroll"), ("x", serF64 x), ("y", serF64 y)]
  | Action.contextMenu => Json.obj [("type", Json.str "context_menu")]
  | Action.custom n => Json.obj [("type", Json.str "custom"), ("name", Json.str n)]

/-- `Node` serialization (all fields emitted; `None` as `null`). -/
def serNode (n : Node) : Json :=
  Json.obj [("id", Json.str n.id.id),
            ("role", Json.str n.role),
            ("name", serOpt Json.str n.name),
            ("value", serOpt Json.str n.value),
            ("description", serOpt Json.str n.description),
            ("bounds", serOpt serRect n.bounds),
            ("actions", Json.arr (n.actions.map serAction)),
            ("children", Json.arr (n.children.map (fun c => Json.str c.id)))]

/-- `Request` serialization: internally tagged by `method`, snake_case. -/
def serRequest : Request → Json
  | Request.queryTree md mn =>
      Json.obj [("method", Json.str "query_tree"),
                ("max_depth", serOpt serUsize md), ("max_nodes", serOpt serUsize mn)]
  | Request.getNode nid =>
      Json.obj [("method", Json.str "get_node"), ("node_id", Json.str nid.id)]
  | Request.performAction nid a =>
      Json.obj [("method", Json.str "perform_action"),
                ("node_id", Json.str nid.id), ("action", serAction a)]
  | Request.findByName nm =>
      Json.obj [("method", Json.str "find_by_name"), ("name", Json.str nm)]

/-- `ResponseData` serialization: `untagged`, so each variant is just
its fields. -/
def serResponseData : ResponseData → Json
  | ResponseData.tree ns => Json.obj [("nodes", Json.arr (ns.map serNode))]
  | ResponseData.node n => Json.obj [("node", serNode n)]
  | ResponseData.actionResult b => Json.obj [("success", Json.bool b)]
  | ResponseData.nodes ns => Json.obj [("nodes", Json.arr (ns.map serNode))]

/-- Field lookup in a JSON object (first occurrence, as serde's map
visitor sees the fields). -/
def jGet (fields : List (String × Json)) (key : String) : Option Json :=
  match fields.find? (fun f => f.1 == key) with
  | some f => some f.2
  | none => none

/-- `f64` deserialization.  (serde also coerces JSON integers to
`f64`; that shape is never produced by serialization of these types
and the coercion is not modelled.) -/
def deF64 : Json → Except String Nat
  | Json.num (JNum.f64 bits) => Except.ok bits
  | _ => Except.error "invalid type: expected f64"

/-- `usize` deserialization from a JSON `u64`. -/
def deUsize : Json → Except String Nat
  | Json.num (JNum.u64 n) => Except.ok n
  | _ => Except.error "invalid type: expected usize"

/-- `String` deserialization. -/
def deStr : Json → Except String String
  | Json.str s => Except.ok s
  | _ => Except.error "invalid type: expected string"

/-- `Option<T>` deserialization: `null` is `None`. -/
def deOpt (f : Json → Except String α) : Json → Except String (Option α)
  | Json.null => Except.ok none
  | j => (f j).map some

/-- An optional struct field: missing or `null` gives `None` (serde
fills absent `Option` fields with `None`). -/
def deOptField (f : Json → Except String α) (fields : List (String × Json))
    (key : String) : Except String (Option α) :=
  match jGet fields key with
  | none => Except.ok none
  | some j => deOpt f j

/-- A required struct field. -/
def deField (f : Json → Except String α) (fields : List (String × Json))
    (key : String) : Except String α :=
  match jGet fields key with
  | none => Except.error ("missing field " ++ key)
  | some j => f j

/-- `Rect` deserialization. -/
def deRect : Json → Except String Rect
  | Json.obj fields => do
      let x ← deField deF64 fields "x"
      let y ← deField deF64 fields "y"
      let w ← deField deF64 fields "width"
      let h ← deField deF64 fields "height"
      Except.ok { x := x, y := y, width := w, height := h }
  | _ => Except.error "invalid type: expected Rect"

/-- `Action` deserialization: dispatch on the `type` tag. -/
def deAction : Json → Except String Action
  | Json.obj fields => do
      let tag ← deField deStr fields "type"
      match tag with
      | "focus" => Except.ok Action.focus
      | "press" => Except.ok Action.press
      | "increment" => Except.ok Action.increment
      | "decrement" => Except.ok Action.decrement
      | "set_value" => do
          let v ← deField deStr fields "value"
          Except.ok (Action.setValue v)
      | "scroll" => do
          let x ← deField deF64 fields "x"
          let y ← deField deF64 fields "y"
          Except.ok (Action.scroll x y)
      | "context_menu" => Except.ok Action.contextMenu
      | "custom" => do
          let n ← deField deStr fields "name"
          Except.ok (Action.custom n)
      | _ => Except.error "unknown variant of Action"
  | _ => Except.error "invalid type: expected Action"

/-- A sequence, elementwise in order, stopping at the first failure
(as serde's `SeqAccess` does). -/
def deList (f : Json → Except String α) : List Json → Except String (List α)
  | [] => Except.ok []
  | j :: t =>
      match f j with
      | Except.error e => Except.error e
      | Except.ok a =>
          match deList f t with
          | Except.error e => Except.error e
          | Except.ok as => Except.ok (a :: as)

/-- A JSON array, elementwise. -/
def deArr (f : Json → Except String α) : Json → Except String (List α)
  | Json.arr xs => deList f xs
  | _ => Except.error "invalid type: expected array"

/-- `NodeId` deserialization: the newtype reads a JSON string. -/
def deNodeId (j : Json) : Except String NodeId :=
  (deStr j).map NodeId.mk

/-- `Node` deserialization. -/
def deNode : Json → Except String Node
  | Json.obj fields => do
      let i ← deField deStr fields "id"
      let role ← deField deStr fields "role"
      let name ← deOptField deStr fields "name"
      let value ← deOptField deStr fields "value"
      let description ← deOptField deStr fields "description"
      let bounds ← deOptField deRect fields "bounds"
      let actions ← deField (deArr deAction) fields "actions"
      let children ← deField (deArr deNodeId) fields "children"
      Except.ok { id := ⟨i⟩, role := role, name := name, value := value,
                  description := description, bounds := bounds,
                  actions := actions, children := children }
  | _ => Except.error "invalid type: expected Node"

/-- `Request` deserialization: dispatch on the `method` tag. -/
def deRequest : Json → Except String Request
  | Json.obj fields => do
      let tag ← deField deStr fields "method"
      match tag with
      | "query_tree" => do
          let md ← deOptField deUsize fields "max_depth"
          let mn ← deOptField deUsize fields "max_nodes"
          Except.ok (Request.queryTree md mn)
      | "get_node" => do
          let nid ← deField deStr fields "node_id"
          Except.ok (Request.getNode ⟨nid⟩)
      | "perform_action" => do
          let nid ← deField deStr fields "node_id"
          let a ← deField deAction fields "action"
          Except.ok (Request.performAction ⟨nid⟩ a)
      | "find_by_name" => do
          let nm ← deField deStr fields "name"
          Except.ok (Request.findByName nm)
      | _ => Except.error "unknown variant of Request"
  | _ => Except.error "invalid type: expected Request"

/-- The field shape shared by the `Tree` and `Nodes` variants of
`ResponseData`: a `nodes` field holding a list of nodes. -/
def deNodesField (j : Json) : Except String (List Node) :=
  match j with
  | Json.obj fields => deField (deArr deNode) fields "nodes"
  | _ => Except.error "invalid type: expected object"

/-- The field shape of the `Node` variant of `ResponseData`: a `node`
field holding one node. -/
def deNodeField (j : Json) : Except String Node :=
  match j with
  | Json.obj fields => deField deNode fields "node"
  | _ => Except.error "invalid type: expected object"

/-- The field shape of the `ActionResult` variant of `ResponseData`: a
boolean `success` field. -/
def deSuccessField (j : Json) : Except String Bool :=
  match j with
  | Json.obj fields =>
      deField (fun x => match x with
                        | Json.bool b => Except.ok b
                        | _ => Except.error "invalid type: expected bool")
        fields "success"
  | _ => Except.error "invalid type: expected object"

/-- `ResponseData` deserialization: serde tries the `untagged`
variants in declaration order (`Tree`, `Node`, `ActionResult`,
`Nodes`) and keeps the first success. -/
def deResponseData (j : Json) : Except String ResponseData :=
  match deNodesField j with
  | Except.ok ns => Except.ok (ResponseData.tree ns)
  | Except.error _ =>
    match deNodeField j with
    | Except.ok n => Except.ok (ResponseData.node n)
    | Except.error _ =>
      match deSuccessField j with
      | Except.ok b => Except.ok (ResponseData.actionResult b)
      | Except.error _ =>
        match deNodesField j with
        | Except.ok ns => Except.ok (ResponseData.nodes ns)
        | Except.error _ =>
            Except.error "data did not match any variant of untagged enum ResponseData"

/-! ## Concrete test fixtures

Small providers in the style of the repository's example
`test_provider`, used to instantiate the theorems at concrete
inputs. -/

/-- The node `{id:"n1", role:"button", name:"OK", actions:[press]}`
used by the spec's test scenarios. -/
def sampleNode : Node :=
  { id := ⟨"n1"⟩, role := "button", name := some "OK", value := none,
    description := none, bounds := none, actions := [Action.press], children := [] }

/-- A provider exposing `sampleNode` as its root and only node, and
accepting exactly the `press` action on it. -/
def sampleProvider : Provider where
  get_root := Except.ok sampleNode
  get_node := fun nid =>
    if nid = ⟨"n1"⟩ then Except.ok sampleNode
    else Except.error ("no node " ++ nid.id)
  perform_action := fun nid a =>
    if nid = ⟨"n1"⟩ ∧ a = Action.press then Except.ok ()
    else Except.error "action rejected"

/-- Root of the cyclic fixture: named `"Root"`, child `"x"`. -/
def cnodeR : Node :=
  { id := ⟨"r"⟩, role := "window", name := some "Root", value := none,
    description := none, bounds := none, actions := [], children := [⟨"x"⟩] }

/-- Child of the cyclic fixture: named `"X"`, whose only child is its
ancestor `"r"` — a cycle back to an ancestor identifier. -/
def cnodeX : Node :=
  { id := ⟨"x"⟩, role := "pane", name := some "X", value := none,
    description := none, bounds := none, actions := [], children := [⟨"r"⟩] }

/-- A provider whose children graph contains a cycle (`r → x → r`). -/
def cycleProvider : Provider where
  get_root := Except.ok cnodeR
  get_node := fun nid =>
    if nid = ⟨"r"⟩ then Except.ok cnodeR
    else if nid = ⟨"x"⟩ then Except.ok cnodeX
    else Except.error ("no node " ++ nid.id)
  perform_action := fun _ _ => Except.error "unsupported"

/-- A provider all of whose operations fail. -/
def brokenProvider : Provider where
  get_root := Except.error "no root"
  get_node := fun _ => Except.error "no node"
  perform_action := fun _ _ => Except.error "no action"

/-- All `f64` payloads of an `Action` are finite (only `Scroll`
carries floats). -/
def actionFloatsFinite : Action → Bool
  | Action.scroll x y => f64IsFinite x && f64IsFinite y
  | _ => true

/-- All `f64` payloads of a `Request` are finite (only a
`PerformAction` carrying a `Scroll` action has any). -/
def requestFloatsFinite : Request → Bool
  | Request.performAction _ a => actionFloatsFinite a
  | _ => true

/-- A `perform_action` request whose `scroll` action carries a NaN
`x` coordinate. -/
def nanScrollRequest : Request :=
  Request.performAction ⟨"n1"⟩ (Action.scroll nanBits zeroBits)

/-- All four `f64` fields of a `Rect` are finite. -/
def rectFloatsFinite (r : Rect) : Bool :=
  f64IsFinite r.x && f64IsFinite r.y && f64IsFinite r.width && f64IsFinite r.height

/-- All `f64` payloads of a `Node` (its optional bounds rectangle and
any `Scroll` actions) are finite. -/
def nodeFloatsFinite (n : Node) : Bool :=
  (match n.bounds with
   | some r => rectFloatsFinite r
   | none => true) && n.actions.all actionFloatsFinite

/-! ## Helper lemmas about the traversal -/

/-- The stack produced by the child-enqueueing loop does not depend on
the log accumulator. -/
theorem pushChildren_fst_log_irrel (p : Provider) :
    ∀ (cids : List NodeId) (stack : List Node) (log log' : List String),
      (pushChildren p cids stack log).1 = (pushChildren p cids stack log').1 := by
  intro cids
  induction cids with
  | nil => intro stack log log'; rfl
  | cons c t ih =>
      intro stack log log'
      simp only [pushChildren]
      cases p.get_node c with
      | ok child => exact ih _ _ _
      | error e => exact ih _ _ _

/-- The child-enqueueing loop only appends to the log. -/
theorem pushChildren_log_extend (p : Provider) :
    ∀ (cids : List NodeId) (stack : List Node) (log : List String),
      ∃ t, (pushChildren p cids stack log).2 = log ++ t := by
  intro cids
  induction cids with
  | nil => intro stack log; exact ⟨[], by simp [pushChildren]⟩
  | cons c t ih =>
      intro stack log
      simp only [pushChildren]
      cases p.get_node c with
      | ok child => exact ih _ _
      | error e =>
          obtain ⟨u, hu⟩ := ih stack (log ++ [childErrMsg c e])
          exact ⟨childErrMsg c e :: u, by simp [hu]⟩

/-- A child whose resolution fails is logged: its error message shows
up in the log produced by the child-enqueueing loop. -/
theorem pushChildren_err_logged (p : Provider) :
    ∀ (cids : List NodeId) (cid : NodeId) (e : String) (stack : List Node)
      (log : List String), cid ∈ cids → p.get_node cid = Except.error e →
      childErrMsg cid e ∈ (pushChildren p cids stack log).2 := by
  intro cids
  induction cids with
  | nil => intro cid e stack log hmem; exact absurd hmem (List.not_mem_nil _)
  | cons c t ih =>
      intro cid e stack log hmem herr
      rcases List.mem_cons.mp hmem with hc | hc
      · subst hc
        simp only [pushChildren, herr]
        obtain ⟨u, hu⟩ := pushChildren_log_extend p t stack (log ++ [childErrMsg cid e])
        rw [hu]
        simp
      · simp only [pushChildren]
        cases p.get_node c with
        | ok child => exact ih cid e _ _ hc herr
        | error e' => exact ih cid e _ _ hc herr

/-- A child whose resolution fails contributes nothing to the stack:
the stack is as if that child were absent from the children list. -/
theorem pushChildren_skip_err (p : Provider) (cid : NodeId) (e : String)
    (herr : p.get_node cid = Except.error e) :
    ∀ (xs ys : List NodeId) (stack : List Node) (log : List String),
      (pushChildren p (xs ++ cid :: ys) stack log).1 =
        (pushChildren p (xs ++ ys) stack log).1 := by
  intro xs
  induction xs with
  | nil =>
      intro ys stack log
      simp only [List.nil_append, pushChildren, herr]
      exact pushChildren_fst_log_irrel p ys stack _ _
  | cons x t ih =>
      intro ys stack log
      simp only [List.cons_append, pushChildren]
      cases p.get_node x with
      | ok child => exact ih _ _ _
      | error e' => exact ih _ _ _

/-- The traversal loop only ever appends to the list of matches. -/
theorem find_loop_matches_extend (p : Provider) (q : String) :
    ∀ (fuel : Nat) (stack : List Node) (visited : List NodeId) (ms : List Node)
      (k : Nat) (log : List String),
      ∃ t, (find_loop p q fuel stack visited ms k log).1 = ms ++ t := by
  intro fuel
  induction fuel with
  | zero =>
      intro stack visited ms k log
      cases stack <;> exact ⟨[], by simp [find_loop]⟩
  | succ n ih =>
      intro stack visited ms k log
      cases stack with
      | nil => exact ⟨[], by simp [find_loop]⟩
      | cons node rest =>
          simp only [find_loop]
          by_cases hk : k ≥ MAX_NODES
          · simp only [if_pos hk]; exact ⟨[], by simp⟩
          · simp only [if_neg hk]
            by_cases hv : visited.contains node.id
            · simp only [if_pos hv]; exact ih _ _ _ _ _
            · simp only [if_neg hv]
              by_cases hm : nodeMatches q node
              · simp only [if_pos hm]
                obtain ⟨t, ht⟩ := ih (pushChildren p node.children rest log).1
                  (node.id :: visited) (ms ++ [node]) (k + 1)
                  (pushChildren p node.children rest log).2
                exact ⟨node :: t, by simpa using ht⟩
              · simp only [if_neg hm]
                exact ih _ _ _ _ _

/-- The node counter never exceeds the `MAX_NODES` cap: it is
incremented only after the cap check has passed. -/
theorem find_loop_k_le (p : Provider) (q : String) :
    ∀ (fuel : Nat) (stack : List Node) (visited : List NodeId) (ms : List Node)
      (k : Nat) (log : List String), k ≤ MAX_NODES →
      (find_loop p q fuel stack visited ms k log).2.1 ≤ MAX_NODES := by
  intro fuel
  induction fuel with
  | zero =>
      intro stack visited ms k log hk
      cases stack <;> simpa [find_loop] using hk
  | succ n ih =>
      intro stack visited ms k log hk
      cases stack with
      | nil => simpa [find_loop] using hk
      | cons node rest =>
          simp only [find_loop]
          by_cases hcap : k ≥ MAX_NODES
          · simpa [if_pos hcap] using hk
          · have hk' : k + 1 ≤ MAX_NODES := by omega
            simp only [if_neg hcap]
            by_cases hv : visited.contains node.id
            · simp only [if_pos hv]; exact ih _ _ _ _ _ hk'
            · simp only [if_neg hv]; exact ih _ _ _ _ _ hk'

/-- Every match ever produced by the loop carries an identifier that
was (by then) inserted into the visited set, and distinct matches
carry distinct identifiers; hence the result of a traversal started
with no matches has pairwise-distinct node identifiers. -/
theorem find_loop_nodup (p : Provider) (q : String) :
    ∀ (fuel : Nat) (stack : List Node) (visited : List NodeId) (ms : List Node)
      (k : Nat) (log : List String),
      (∀ m ∈ ms, m.id ∈ visited) → (ms.map Node.id).Nodup →
      ((find_loop p q fuel stack visited ms k log).1.map Node.id).Nodup := by
  intro fuel
  induction fuel with
  | zero =>
      intro stack visited ms k log _ hnd
      cases stack <;> simpa [find_loop] using hnd
  | succ n ih =>
      intro stack visited ms k log hvis hnd
      cases stack with
      | nil => simpa [find_loop] using hnd
      | cons node rest =>
          simp only [find_loop]
          by_cases hcap : k ≥ MAX_NODES
          · simpa [if_pos hcap] using hnd
          · simp only [if_neg hcap]
            by_cases hv : visited.contains node.id
            · simp only [if_pos hv]; exact ih _ _ _ _ _ hvis hnd
            · simp only [if_neg hv]
              have hnotmem : node.id ∉ visited := by
                intro hmem
                exact hv (List.elem_eq_true_of_mem hmem)
              have hvis' : ∀ m ∈ ms, m.id ∈ node.id :: visited := by
                intro m hm; exact List.mem_cons_of_mem _ (hvis m hm)
              by_cases hm : nodeMatches q node
              · simp only [if_pos hm]
                refine ih _ _ _ _ _ ?_ ?_
                · intro m hmem
                  rcases List.mem_append.mp hmem with h | h
                  · exact List.mem_cons_of_mem _ (hvis m h)
                  · simp only [List.mem_singleton] at h
                    subst h; exact List.mem_cons_self _ _
                · rw [List.map_append]
                  refine List.Nodup.append hnd (by simp) ?_
                  intro a ha hb
                  simp only [List.map_cons, List.map_nil, List.mem_singleton] at hb
                  subst hb
                  rcases List.mem_map.mp ha with ⟨m, hm', hid⟩
                  exact hnotmem (hid ▸ hvis m hm')
              · simp only [if_neg hm]
                exact ih _ _ _ _ _ hvis' hnd

/-- Every match ever produced by the loop satisfies the name-match
predicate, provided the initial accumulator does. -/
theorem find_loop_all_match (p : Provider) (q : String) :
    ∀ (fuel : Nat) (stack : List Node) (visited : List NodeId) (ms : List Node)
      (k : Nat) (log : List String),
      (∀ m ∈ ms, nodeMatches q m = true) →
      ∀ m ∈ (find_loop p q fuel stack visited ms k log).1, nodeMatches q m = true := by
  intro fuel
  induction fuel with
  | zero =>
      intro stack visited ms k log hms
      cases stack <;> simpa [find_loop] using hms
  | succ n ih =>
      intro stack visited ms k log hms
      cases stack with
      | nil => simpa [find_loop] using hms
      | cons node rest =>
          simp only [find_loop]
          by_cases hcap : k ≥ MAX_NODES
          · simpa [if_pos hcap] using hms
          · simp only [if_neg hcap]
            by_cases hv : visited.contains node.id
            · simp only [if_pos hv]; exact ih _ _ _ _ _ hms
            · simp only [if_neg hv]
              by_cases hm : nodeMatches q node
              · simp only [if_pos hm]
                refine ih _ _ _ _ _ ?_
                intro m hmem
                rcases List.mem_append.mp hmem with h | h
                · exact hms m h
                · simp only [List.mem_singleton] at h; subst h; exact hm
              · simp only [if_neg hm]
                exact ih _ _ _ _ _ hms

/-! ## Helper lemmas about the codec -/

/-- A rectangle with finite fields round-trips through the codec. -/
theorem deRect_serRect (r : Rect) (h : rectFloatsFinite r = true) :
    deRect (serRect r) = Except.ok r := by
  simp only [rectFloatsFinite, Bool.and_eq_true] at h
  obtain ⟨⟨⟨hx, hy⟩, hw⟩, hh⟩ := h
  simp only [serRect, serF64, hx, hy, hw, hh, if_true]
  rfl

/-- An action with finite float payloads round-trips through the
codec. -/
theorem deAction_serAction (a : Action) (h : actionFloatsFinite a = true) :
    deAction (serAction a) = Except.ok a := by
  cases a with
  | scroll x y =>
      simp only [actionFloatsFinite, Bool.and_eq_true] at h
      simp only [serAction, serF64, h.1, h.2, if_true]
      rfl
  | focus => rfl
  | press => rfl
  | increment => rfl
  | decrement => rfl
  | setValue v => rfl
  | contextMenu => rfl
  | custom n => rfl

/-- Elementwise round trip for serialized sequences. -/
theorem deList_roundtrip {α : Type} (f : Json → Except String α) (g : α → Json)
    (l : List α) (hall : ∀ a ∈ l, f (g a) = Except.ok a) :
    deList f (l.map g) = Except.ok l := by
  induction l with
  | nil => rfl
  | cons a t ih =>
      have ha : f (g a) = Except.ok a := hall a (by simp)
      have ht := ih (fun b hb => hall b (by simp [hb]))
      simp [deList, ha, ht]

/-- A node with finite float payloads round-trips through the codec. -/
theorem deNode_serNode (n : Node) (h : nodeFloatsFinite n = true) :
    deNode (serNode n) = Except.ok n := by
  obtain ⟨nid, role, name, value, description, bounds, actions, children⟩ := n
  simp only [nodeFloatsFinite, Bool.and_eq_true, List.all_eq_true] at h
  have hacts : deList deAction (actions.map serAction) = Except.ok actions :=
    deList_roundtrip deAction serAction actions (fun a ha => deAction_serAction a (h.2 a ha))
  have hch : deList deNodeId (children.map (fun c => Json.str c.id)) = Except.ok children :=
    deList_roundtrip deNodeId (fun c => Json.str c.id) children (fun c _ => rfl)
  have hnm : ∀ o : Option String, deOpt deStr (serOpt Json.str o) = Except.ok o := by
    intro o; cases o <;> rfl
  have hb : deOpt deRect (serOpt serRect bounds) = Except.ok bounds := by
    cases bounds with
    | none => rfl
    | some r =>
        show (deRect (serRect r)).map some = Except.ok (some r)
        rw [deRect_serRect r h.1]
        rfl
  show (deOpt deStr (serOpt Json.str name)).bind (fun nm =>
    (deOpt deStr (serOpt Json.str value)).bind (fun vl =>
      (deOpt deStr (serOpt Json.str description)).bind (fun ds =>
        (deOpt deRect (serOpt serRect bounds)).bind (fun bd =>
          (deList deAction (actions.map serAction)).bind (fun acts =>
            (deList deNodeId (children.map (fun c => Json.str c.id))).bind (fun chs =>
              Except.ok (Node.mk ⟨nid.id⟩ role nm vl ds bd acts chs))))))) =
    Except.ok (Node.mk nid role name value description bounds actions children)
  rw [hnm name, hnm value, hnm description, hb, hacts, hch]
  rfl

/-- The serialization of a node list parses back through the shared
`nodes`-field shape. -/
theorem deNodesField_ser (ns : List Node) (h : ∀ n ∈ ns, nodeFloatsFinite n = true) :
    deNodesField (serResponseData (ResponseData.nodes ns)) = Except.ok ns := by
  show deList deNode (ns.map serNode) = Except.ok ns
  exact deList_roundtrip deNode serNode ns (fun n hn => deNode_serNode n (h n hn))

/-! ## Claim theorems -/

/-- C3: for every decoded `Message` whose `protocol_version` differs
from the literal `"1.0"`, `handle_request` answers with an `Error`
response of code `internal` naming the unsupported version — and the
answer does not depend on the provider, so no request handler (hence
no provider call) is reached.  This holds uniformly for every message
content, i.e. every request kind. -/
theorem C3_version_gate (p p' : Provider) (msg : Message)
    (h : msg.protocol_version ≠ PROTOCOL_VERSION) :
    handle_request p msg =
      Message.error ErrorCode.internal
        ("Unsupported protocol version: " ++ msg.protocol_version) ∧
    handle_request p msg = handle_request p' msg := by
  constructor
  · simp [handle_request, h]
  · simp [handle_request, h]

/-- C3 witness: a `find_by_name` request carrying version `"2.0"`
against the broken provider is rejected by the version gate, with the
same answer as against the sample provider. -/
theorem C3_version_gate_witness :
    handle_request brokenProvider
        ⟨"2.0", MessageContent.request (Request.findByName "OK")⟩ =
      Message.error ErrorCode.internal ("Unsupported protocol version: " ++ "2.0") ∧
    handle_request brokenProvider
        ⟨"2.0", MessageContent.request (Request.findByName "OK")⟩ =
      handle_request sampleProvider
        ⟨"2.0", MessageContent.request (Request.findByName "OK")⟩ :=
  C3_version_gate brokenProvider sampleProvider _ (by decide)

/-- C6: `handle_get_node` forwards a successful provider lookup as
`Success{Node{..}}` with the provider's node unchanged, and converts a
failed lookup into an `Error` with code `not_found` carrying the
resolution failure message. -/
theorem C6_get_node (p : Provider) (nid : NodeId) :
    (∀ n, p.get_node nid = Except.ok n →
      handle_get_node p nid = Response.success (ResponseData.node n)) ∧
    (∀ e, p.get_node nid = Except.error e →
      handle_get_node p nid =
        Response.error { code := ErrorCode.notFound, message := "Node not found: " ++ e }) := by
  constructor
  · intro n h; simp [handle_get_node, h]
  · intro e h; simp [handle_get_node, h]

/-- C6 witness: looking up `"n1"` on the sample provider yields its
button node; looking up the unregistered `"missing"` yields a
`not_found` error. -/
theorem C6_get_node_witness :
    handle_get_node sampleProvider ⟨"n1"⟩ =
      Response.success (ResponseData.node sampleNode) ∧
    handle_get_node sampleProvider ⟨"missing"⟩ =
      Response.error { code := ErrorCode.notFound,
                       message := "Node not found: " ++ "no node missing" } :=
  ⟨(C6_get_node sampleProvider ⟨"n1"⟩).1 sampleNode rfl,
   (C6_get_node sampleProvider ⟨"missing"⟩).2 "no node missing" rfl⟩

/-- C7: `handle_perform_action` answers
`Success{ActionResult{success:true}}` exactly on provider success, and
converts every provider failure into an `Error` with code
`invalid_action` carrying the underlying message. -/
theorem C7_perform_action (p : Provider) (nid : NodeId) (a : Action) :
    (p.perform_action nid a = Except.ok () →
      handle_perform_action p nid a = Response.success (ResponseData.actionResult true)) ∧
    (∀ e, p.perform_action nid a = Except.error e →
      handle_perform_action p nid a =
        Response.error { code := ErrorCode.invalidAction,
                         message := "Failed to perform action: " ++ e }) := by
  constructor
  · intro h; simp [handle_perform_action, h]
  · intro e h; simp [handle_perform_action, h]

/-- C7 witness: pressing `"n1"` on the sample provider (which accepts
it) succeeds with `ActionResult{success:true}`; an `increment` on the
same node is rejected as `invalid_action`. -/
theorem C7_perform_action_witness :
    handle_perform_action sampleProvider ⟨"n1"⟩ Action.press =
      Response.success (ResponseData.actionResult true) ∧
    handle_perform_action sampleProvider ⟨"n1"⟩ Action.increment =
      Response.error { code := ErrorCode.invalidAction,
                       message := "Failed to perform action: " ++ "action rejected" } :=
  ⟨(C7_perform_action sampleProvider ⟨"n1"⟩ Action.press).1 rfl,
   (C7_perform_action sampleProvider ⟨"n1"⟩ Action.increment).2 "action rejected" rfl⟩

/-- C8: `handle_query_tree` ignores its `max_depth`/`max_nodes`
arguments entirely; on provider success it returns the single root
node wrapped as `Tree{nodes:[root]}`, and on failure an `Error` with
code `internal`. -/
theorem C8_query_tree (p : Provider) (d n d' n' : Option Nat) :
    handle_query_tree p d n = handle_query_tree p d' n' ∧
    (∀ r, p.get_root = Except.ok r →
      handle_query_tree p d n = Response.success (ResponseData.tree [r])) ∧
    (∀ e, p.get_root = Except.error e →
      handle_query_tree p d n =
        Response.error { code := ErrorCode.internal, message := "Failed to get root: " ++ e }) := by
  refine ⟨rfl, ?_, ?_⟩
  · intro r h; simp [handle_query_tree, h]
  · intro e h; simp [handle_query_tree, h]

/-- C8 witness: with `max_depth = 3, max_nodes = 7` the sample
provider's tree response is exactly the root-only tree, identical to
the one with no limits; the broken provider yields an internal
error. -/
theorem C8_query_tree_witness :
    handle_query_tree sampleProvider (some 3) (some 7) =
      handle_query_tree sampleProvider none none ∧
    handle_query_tree sampleProvider (some 3) (some 7) =
      Response.success (ResponseData.tree [sampleNode]) ∧
    handle_query_tree brokenProvider none none =
      Response.error { code := ErrorCode.internal,
                       message := "Failed to get root: " ++ "no root" } :=
  ⟨(C8_query_tree sampleProvider (some 3) (some 7) none none).1,
   (C8_query_tree sampleProvider (some 3) (some 7) none none).2.1 sampleNode rfl,
   (C8_query_tree brokenProvider none none none none).2.2 "no root" rfl⟩

/-- C1: the traversal of `handle_find_by_name` processes each
identifier at most once.  (i) A popped node whose identifier is
already in the visited set is skipped: the iteration neither tests it
for a match nor fetches its children, it only consumes one unit of the
node budget.  (ii) Consequently, for any provider — cyclic children
graphs included — the identifiers of the returned matches are pairwise
distinct: no node is ever matched twice. -/
theorem C1_visited_once (p : Provider) (query : String) :
    (∀ (fuel : Nat) (node : Node) (rest : List Node) (visited : List NodeId)
       (ms : List Node) (k : Nat) (log : List String),
       visited.contains node.id = true → ¬ k ≥ MAX_NODES →
       find_loop p query (fuel + 1) (node :: rest) visited ms k log =
         find_loop p query fuel rest visited ms (k + 1) log) ∧
    (∀ ms, (handle_find_by_name p query).1 =
        Response.success (ResponseData.nodes ms) → (ms.map Node.id).Nodup) := by
  constructor
  · intro fuel node rest visited ms k log hv hk
    have hmem : node.id ∈ visited := List.mem_of_elem_eq_true hv
    simp [find_loop, hk, hmem]
  · intro ms hms
    unfold handle_find_by_name at hms
    cases hroot : p.get_root with
    | error e => rw [hroot] at hms; exact absurd hms (by simp)
    | ok root =>
        rw [hroot] at hms
        simp only [Response.success.injEq, ResponseData.nodes.injEq] at hms
        subst hms
        exact find_loop_nodup p query _ _ _ _ _ _ (by simp) (by simp)

/-- C1 witness: on the cyclic provider (`r → x → r`), a pop of the
root with its identifier already visited is a pure skip, and the full
search returns matches with pairwise-distinct identifiers. -/
theorem C1_visited_once_witness :
    find_loop cycleProvider "" 7 [cnodeR] [⟨"r"⟩] [] 5 [] =
      find_loop cycleProvider "" 6 [] [⟨"r"⟩] [] 6 [] ∧
    (([cnodeR, cnodeX].map Node.id).Nodup) :=
  ⟨(C1_visited_once cycleProvider "").1 6 cnodeR [] [⟨"r"⟩] [] 5 [] (by decide) (by decide),
   (C1_visited_once cycleProvider "").2 [cnodeR, cnodeX] rfl⟩

/-- C2: the search of `handle_find_by_name` is budget-bounded.  (i)
The node counter, which every loop iteration increments exactly once
before doing anything else, never exceeds `MAX_NODES = 1000`, so at
most 1000 nodes are ever checked.  (ii) When a node is popped with the
budget exhausted, the loop stops immediately and appends the
diagnostic `maxNodesMsg` to the log, keeping the matches found so far.
(iii) Whenever the root resolves, the handler returns a `Success`
response carrying the (possibly partial) match set — never an
`Error`. -/
theorem C2_bounded_search (p : Provider) (query : String) :
    (∀ (fuel : Nat) (stack : List Node) (visited : List NodeId) (ms : List Node)
       (k : Nat) (log : List String), k ≤ MAX_NODES →
       (find_loop p query fuel stack visited ms k log).2.1 ≤ MAX_NODES) ∧
    (∀ (fuel : Nat) (node : Node) (rest : List Node) (visited : List NodeId)
       (ms : List Node) (k : Nat) (log : List String), k ≥ MAX_NODES →
       find_loop p query (fuel + 1) (node :: rest) visited ms k log =
         (ms, k, log ++ [maxNodesMsg])) ∧
    (∀ root, p.get_root = Except.ok root →
      ∃ ms, (handle_find_by_name p query).1 =
        Response.success (ResponseData.nodes ms)) := by
  refine ⟨find_loop_k_le p query, ?_, ?_⟩
  · intro fuel node rest visited ms k log hk
    simp [find_loop, hk]
  · intro root hroot
    refine ⟨(find_loop p query (MAX_NODES + 1) [root] [] [] 0 []).1, ?_⟩
    unfold handle_find_by_name
    rw [hroot]

/-- C2 witness: starting from the root of the cyclic provider the
counter stays within the cap; a pop with the budget exhausted yields
exactly the prior matches plus the diagnostic; and the cyclic search
still produces a `Success` response. -/
theorem C2_bounded_search_witness :
    (find_loop cycleProvider "" (MAX_NODES + 1) [cnodeR] [] [] 0 []).2.1 ≤ MAX_NODES ∧
    find_loop cycleProvider "" 1 [cnodeR] [] [cnodeX] 1000 [] =
      ([cnodeX], 1000, [maxNodesMsg]) ∧
    (∃ ms, (handle_find_by_name cycleProvider "").1 =
      Response.success (ResponseData.nodes ms)) :=
  ⟨(C2_bounded_search cycleProvider "").1 (MAX_NODES + 1) [cnodeR] [] [] 0 [] (by decide),
   (C2_bounded_search cycleProvider "").2.1 0 cnodeR [] [] [cnodeX] 1000 [] (by decide),
   (C2_bounded_search cycleProvider "").2.2 cnodeR rfl⟩

/-- C5: `handle_find_by_name` is a stack-based depth-first search.
(i) The handler seeds an explicit stack with the root node and wraps
the loop's matches in a `Success` whenever the root resolves.  (ii)
Popping a fresh node pushes its children — each fetched through
`provider.get_node` — onto the stack above the remaining nodes, the
last child topmost (LIFO).  (iii) A child whose fetch fails
contributes nothing to the stack: the stack is exactly as if that
child were absent, so only it is skipped and the traversal continues
with the remaining children.  (iv) Such a failure is logged. -/
theorem C5_dfs_traversal (p : Provider) (query : String) :
    (∀ root, p.get_root = Except.ok root →
      (handle_find_by_name p query).1 =
        Response.success (ResponseData.nodes
          (find_loop p query (MAX_NODES + 1) [root] [] [] 0 []).1)) ∧
    (∀ (fuel : Nat) (node : Node) (rest : List Node) (visited : List NodeId)
       (ms : List Node) (k : Nat) (log : List String),
       ¬ k ≥ MAX_NODES → visited.contains node.id = false →
       find_loop p query (fuel + 1) (node :: rest) visited ms k log =
         find_loop p query fuel (pushChildren p node.children rest log).1
           (node.id :: visited)
           (if nodeMatches query node then ms ++ [node] else ms) (k + 1)
           (pushChildren p node.children rest log).2) ∧
    (∀ (cid : NodeId) (e : String) (xs ys : List NodeId) (stack : List Node)
       (log : List String), p.get_node cid = Except.error e →
       (pushChildren p (xs ++ cid :: ys) stack log).1 =
         (pushChildren p (xs ++ ys) stack log).1) ∧
    (∀ (cids : List NodeId) (cid : NodeId) (e : String) (stack : List Node)
       (log : List String), cid ∈ cids → p.get_node cid = Except.error e →
       childErrMsg cid e ∈ (pushChildren p cids stack log).2) := by
  refine ⟨?_, ?_, ?_, ?_⟩
  · intro root hroot
    unfold handle_find_by_name
    rw [hroot]
  · intro fuel node rest visited ms k log hk hv
    have hnm : node.id ∉ visited := fun h => by
      simp [h] at hv
    simp [find_loop, hk, hnm]
  · intro cid e xs ys stack log herr
    exact pushChildren_skip_err p cid e herr xs ys stack log
  · intro cids cid e stack log hmem herr
    exact pushChildren_err_logged p cids cid e stack log hmem herr

/-- C5 witness: on a provider with one resolvable child and one
unresolvable one, the seeded search is `Success`, the step pushes the
fetched children LIFO, the broken child leaves the stack untouched,
and its failure message is logged. -/
theorem C5_dfs_traversal_witness :
    (handle_find_by_name cycleProvider "Root").1 =
      Response.success (ResponseData.nodes
        (find_loop cycleProvider "Root" (MAX_NODES + 1) [cnodeR] [] [] 0 []).1) ∧
    find_loop cycleProvider "Root" 3 [cnodeR] [] [] 0 [] =
      find_loop cycleProvider "Root" 2
        (pushChildren cycleProvider [⟨"x"⟩] [] []).1 [⟨"r"⟩] [cnodeR] 1
        (pushChildren cycleProvider [⟨"x"⟩] [] []).2 ∧
    (pushChildren cycleProvider [⟨"x"⟩, ⟨"bad"⟩] [] []).1 =
      (pushChildren cycleProvider [⟨"x"⟩] [] []).1 ∧
    childErrMsg ⟨"bad"⟩ "no node bad" ∈
      (pushChildren cycleProvider [⟨"x"⟩, ⟨"bad"⟩] [] []).2 :=
  ⟨(C5_dfs_traversal cycleProvider "Root").1 cnodeR rfl,
   (C5_dfs_traversal cycleProvider "Root").2.1 2 cnodeR [] [] [] 0 [] (by decide) (by decide),
   (C5_dfs_traversal cycleProvider "Root").2.2.1 ⟨"bad"⟩ "no node bad" [⟨"x"⟩] [] [] [] rfl,
   (C5_dfs_traversal cycleProvider "Root").2.2.2 [⟨"x"⟩, ⟨"bad"⟩] ⟨"bad"⟩ "no node bad" [] []
     (by decide) rfl⟩

/-- C4: the match rule of `handle_find_by_name`.  (i) A freshly popped
node satisfying `nodeMatches` — its `name` is present and its
lowercasing contains the lowercased query — ends up in the result set.
(ii) A freshly popped node failing `nodeMatches` is not added: the
loop continues with the match accumulator unchanged.  (iii) Every node
of the result set satisfies `nodeMatches`.  In particular the empty
query matches every named node, and matching is case-insensitive. -/
theorem C4_match_rule (p : Provider) (query : String) :
    (∀ (fuel : Nat) (node : Node) (rest : List Node) (visited : List NodeId)
       (ms : List Node) (k : Nat) (log : List String),
       ¬ k ≥ MAX_NODES → visited.contains node.id = false →
       nodeMatches query node = true →
       node ∈ (find_loop p query (fuel + 1) (node :: rest) visited ms k log).1) ∧
    (∀ (fuel : Nat) (node : Node) (rest : List Node) (visited : List NodeId)
       (ms : List Node) (k : Nat) (log : List String),
       ¬ k ≥ MAX_NODES → visited.contains node.id = false →
       nodeMatches query node = false →
       find_loop p query (fuel + 1) (node :: rest) visited ms k log =
         find_loop p query fuel (pushChildren p node.children rest log).1
           (node.id :: visited) ms (k + 1)
           (pushChildren p node.children rest log).2) ∧
    (∀ ms, (handle_find_by_name p query).1 =
        Response.success (ResponseData.nodes ms) →
      ∀ m ∈ ms, nodeMatches query m = true) := by
  refine ⟨?_, ?_, ?_⟩
  · intro fuel node rest visited ms k log hk hv hm
    have hstep : find_loop p query (fuel + 1) (node :: rest) visited ms k log =
        find_loop p query fuel (pushChildren p node.children rest log).1
          (node.id :: visited) (ms ++ [node]) (k + 1)
          (pushChildren p node.children rest log).2 := by
      have hnm : node.id ∉ visited := fun h => by
        simp [h] at hv
      simp [find_loop, hk, hnm, hm]
    rw [hstep]
    obtain ⟨t, ht⟩ := find_loop_matches_extend p query fuel
      (pushChildren p node.children rest log).1 (node.id :: visited)
      (ms ++ [node]) (k + 1) (pushChildren p node.children rest log).2
    rw [ht]
    simp
  · intro fuel node rest visited ms k log hk hv hm
    have hnm : node.id ∉ visited := fun h => by
      simp [h] at hv
    simp [find_loop, hk, hnm, hm]
  · intro ms hms m hm
    unfold handle_find_by_name at hms
    cases hroot : p.get_root with
    | error e => rw [hroot] at hms; exact absurd hms (by simp)
    | ok root =>
        rw [hroot] at hms
        simp only [Response.success.injEq, ResponseData.nodes.injEq] at hms
        subst hms
        exact find_loop_all_match p query _ _ _ _ _ _ (by simp) m hm

/-- C4 witness: `find_by_name("")` on the sample provider puts the
(non-empty-named) button node in the result set; `find_by_name("ok")`
matches the node named `"OK"` (case-insensitive), which is the sole
returned match, and every returned node passes the match rule. -/
theorem C4_match_rule_witness :
    sampleNode ∈ (find_loop sampleProvider "" (1000 + 1) [sampleNode] [] [] 0 []).1 ∧
    sampleNode ∈ (find_loop sampleProvider "ok" (1000 + 1) [sampleNode] [] [] 0 []).1 ∧
    nodeMatches "ok" sampleNode = true :=
  ⟨(C4_match_rule sampleProvider "").1 1000 sampleNode [] [] [] 0 []
      (by decide) rfl (by decide),
   (C4_match_rule sampleProvider "ok").1 1000 sampleNode [] [] [] 0 []
      (by decide) rfl (by decide),
   (C4_match_rule sampleProvider "ok").2.2 [sampleNode] rfl sampleNode (by simp)⟩

/-- C9 counterexample: serializing the request
`PerformAction{node_id:"n1", action: Scroll{x: NaN, y: 0.0}}` writes
the non-finite `x` as JSON `null` (as serde_json does), and
deserializing that payload fails — the round trip does not reproduce
the original value. -/
theorem C9_roundtrip_counterexample :
    deRequest (serRequest nanScrollRequest) ≠ Except.ok nanScrollRequest := by
  intro h
  rw [show deRequest (serRequest nanScrollRequest) =
        Except.error "invalid type: expected f64" from rfl] at h
  exact Except.noConfusion h

/-- C9 (amended): for every `Request` value all of whose `f64`
payloads are finite, serializing and deserializing reproduces a value
equal to the original. -/
theorem C9_request_roundtrip (r : Request) (h : requestFloatsFinite r = true) :
    deRequest (serRequest r) = Except.ok r := by
  cases r with
  | queryTree md mn => cases md <;> cases mn <;> rfl
  | getNode nid => rfl
  | findByName nm => rfl
  | performAction nid a =>
      cases a with
      | focus => rfl
      | press => rfl
      | increment => rfl
      | decrement => rfl
      | setValue v => rfl
      | contextMenu => rfl
      | custom n => rfl
      | scroll x y =>
          simp only [requestFloatsFinite, actionFloatsFinite, Bool.and_eq_true] at h
          simp only [serRequest, serAction, serF64, h.1, h.2, if_true]
          rfl

/-- C9 witness: a `perform_action` request scrolling by `(1.0, 0.0)`
(finite bit patterns) round-trips to an equal value. -/
theorem C9_request_roundtrip_witness :
    requestFloatsFinite
        (Request.performAction ⟨"n1"⟩ (Action.scroll 0x3FF0000000000000 zeroBits)) = true ∧
    deRequest (serRequest
        (Request.performAction ⟨"n1"⟩ (Action.scroll 0x3FF0000000000000 zeroBits))) =
      Except.ok (Request.performAction ⟨"n1"⟩ (Action.scroll 0x3FF0000000000000 zeroBits)) :=
  ⟨by decide,
   C9_request_roundtrip
     (Request.performAction ⟨"n1"⟩ (Action.scroll 0x3FF0000000000000 zeroBits)) (by decide)⟩

/-- C10: since `ResponseData` is serialized `untagged`, the `Tree` and
`Nodes` variants serialize to the very same JSON for any node list;
deserialization tries the variants in declaration order, so it can
never produce the `Nodes` constructor — in particular, serializing a
`Nodes` value (as `find_by_name` results are built) and reading it
back yields the `Tree` constructor. -/
theorem C10_untagged_collapse :
    (∀ ns, serResponseData (ResponseData.tree ns) =
      serResponseData (ResponseData.nodes ns)) ∧
    (∀ j r, deResponseData j = Except.ok r → ∀ ns, r ≠ ResponseData.nodes ns) ∧
    (∀ ns, (∀ n ∈ ns, nodeFloatsFinite n = true) →
      deResponseData (serResponseData (ResponseData.nodes ns)) =
        Except.ok (ResponseData.tree ns)) := by
  refine ⟨fun ns => rfl, ?_, ?_⟩
  case refine_2 =>
    intro ns hfin
    unfold deResponseData
    rw [deNodesField_ser ns hfin]
  intro j r h ns
  unfold deResponseData at h
  cases h1 : deNodesField j with
  | ok ns' =>
      rw [h1] at h
      cases h
      simp
  | error e1 =>
      rw [h1] at h
      cases h2 : deNodeField j with
      | ok n =>
          rw [h2] at h
          cases h
          simp
      | error e2 =>
          rw [h2] at h
          cases h3 : deSuccessField j with
          | ok b =>
              rw [h3] at h
              cases h
              simp
          | error e3 =>
              rw [h3] at h
              exact Except.noConfusion h

/-- C10 witness: the serialized form of `ActionResult{success:true}`
deserializes successfully and (necessarily) not to a `Nodes` value;
serializing a `Nodes` result holding the sample button node and
reading it back yields the `Tree` constructor instead. -/
theorem C10_untagged_collapse_witness :
    ResponseData.actionResult true ≠ ResponseData.nodes [] ∧
    deResponseData (serResponseData (ResponseData.nodes [sampleNode])) =
      Except.ok (ResponseData.tree [sampleNode]) :=
  ⟨C10_untagged_collapse.2.1 (serResponseData (ResponseData.actionResult true))
     (ResponseData.actionResult true) rfl [],
   C10_untagged_collapse.2.2 [sampleNode] (by decide)⟩

end Mcp
